import Mathlib

/-!
# prometheus-docker-labels-discovery: label resolver and discovery registry

A shallow embedding of `utils.go` and of the resolver and registry parts of
`docker_handler.go`, followed by the properties proved about them.

Conventions of the embedding:

* a Go `map[string]V` is the list of its entries, in the order in which this run
  of the program iterates over it; a well-formed map has pairwise distinct keys;
* a Go `string` is a Lean `String`; the separators used by the program are single
  ASCII characters, so splitting on them is splitting the list of characters;
* a run-time panic (index out of range) is the result `none`;
* the pointers filled by the Docker client (`Config`, `NetworkSettings`, the endpoint
  settings of a network) are not nil;
* the Docker daemon is a parameter: the answer it gives to each inspect call.
-/

namespace DockerLabelsDiscovery

/-! ## Go maps -/

/-- A Go `map[string]V`: its entries in iteration order. -/
abbrev GoMap (V : Type) := List (String × V)

/-- The comma-ok lookup `v, ok := m[k]`. -/
def mapGet {V : Type} : GoMap V → String → Option V
  | [], _ => none
  | (k', v) :: rest, k => if k' = k then some v else mapGet rest k

/-- The assignment `m[k] = v`: replaces the value of an existing key, adds a new key. -/
def mapSet {V : Type} : GoMap V → String → V → GoMap V
  | [], k, v => [(k, v)]
  | (k', v') :: rest, k, v => if k' = k then (k, v) :: rest else (k', v') :: mapSet rest k v

/-- The builtin `delete(m, k)`. -/
def mapDelete {V : Type} (m : GoMap V) (k : String) : GoMap V :=
  m.filter (fun e => decide (e.1 ≠ k))

/-- The keys of a map, in iteration order. -/
def mapKeys {V : Type} (m : GoMap V) : List String := m.map Prod.fst

/-- The loop `for k, v := range src { dst[k] = v }`. -/
def mapCopyInto {V : Type} (dst src : GoMap V) : GoMap V :=
  src.foldl (fun m kv => mapSet m kv.1 kv.2) dst

/-! ## Go strings -/

/-- Splitting a list of characters at every occurrence of `sep`. -/
def splitChars (sep : Char) : List Char → List (List Char)
  | [] => [[]]
  | c :: cs =>
    if c = sep then [] :: splitChars sep cs
    else
      match splitChars sep cs with
      | [] => [[c]]
      | piece :: pieces => (c :: piece) :: pieces

/-- The call `strings.Split(s, sep)` for a separator of one character. -/
def stringsSplit (s : String) (sep : Char) : List String :=
  (splitChars sep s.data).map String.mk

/-- The call `strings.Join(elems, sep)`. -/
def stringsJoin : List String → String → String
  | [], _ => ""
  | [e], _ => e
  | e :: e' :: es, sep => e ++ sep ++ stringsJoin (e' :: es) sep

/-! ## utils.go -/

/-- Source: `getFromMapOrDefault`. -/
def getFromMapOrDefault (key : String) (m : GoMap String) (defaultValue : String) : String :=
  match mapGet m key with
  | some v => v
  | none => defaultValue

/-- One iteration of the loop of `parseCSLabels`: `z[0]` panics on an empty slice. -/
def parseCSLabelsStep (m : GoMap String) (pair : String) : Option (GoMap String) :=
  let z := stringsSplit pair ':'
  if z.length < 2 then
    z[0]?.map (fun z0 => mapSet m z0 "")
  else
    z[0]?.map (fun z0 => mapSet m z0 (stringsJoin (z.drop 1) ":"))

/-- Source: `parseCSLabels`, for a string of the format `k1:v1,k2:v2,...`. -/
def parseCSLabels (labels : String) : Option (GoMap String) :=
  if labels = "" then some []
  else (stringsSplit labels ',').foldlM parseCSLabelsStep []

/-! ## The Docker API types read by the resolver -/

/-- The type `network.EndpointSettings`: the address of a container on one network. -/
structure EndpointSettings where
  IPAddress : String
  deriving DecidableEq, Repr

/-- The type `nat.PortBinding`: the host side of a published port. -/
structure PortBinding where
  HostIP : String
  HostPort : String
  deriving DecidableEq, Repr

/-- The type `container.Config`, reduced to the field the program reads. -/
structure Config where
  Labels : GoMap String
  deriving DecidableEq, Repr

/-- The type `types.NetworkSettings`: `Ports` is a `nat.PortMap`, keyed by the
container port (`"8080/tcp"`), each key with its host bindings. -/
structure NetworkSettings where
  Ports : GoMap (List PortBinding)
  Networks : GoMap EndpointSettings
  deriving DecidableEq, Repr

/-- The type `types.ContainerJSON`, the answer of `ContainerInspect`. -/
structure ContainerJSON where
  ID : String
  Name : String
  Config : Config
  NetworkSettings : NetworkSettings
  deriving DecidableEq, Repr

/-- Modelled from the spec: the methods of `nat.Port` belong to the library
`docker/go-connections`, which is not part of the sources. A key of the port map
reads `port/proto`; `SplitProtoPort` returns the protocol and the port of such a
key, the protocol defaulting to `tcp` when the key names none. -/
def SplitProtoPort (rawPort : String) : String × String :=
  match stringsSplit rawPort '/' with
  | [] => ("", "")
  | [p0] => if rawPort = "" ∨ p0 = "" then ("", "") else ("tcp", rawPort)
  | p0 :: p1 :: _ =>
    if rawPort = "" ∨ p0 = "" then ("", "")
    else if p1 = "" then ("tcp", p0)
    else (p1, p0)

/-- Modelled from the spec: `nat.Port.Proto`, the transport protocol of a port-map key. -/
def Proto (p : String) : String := (SplitProtoPort p).1

/-- Modelled from the spec: `nat.Port.Port`, the port number of a port-map key. -/
def Port (p : String) : String := (SplitProtoPort p).2

/-- Source: `getContainerPortsNetworkConfig`, the keys of the port map. -/
def getContainerPortsNetworkConfig (ports : GoMap (List PortBinding)) : List String :=
  mapKeys ports

/-- Source: `getNetworkNamesFromNetworks`, the keys of the network map. -/
def getNetworkNamesFromNetworks (m : GoMap EndpointSettings) : List String :=
  mapKeys m

/-! ## docker_handler.go: constants and configuration -/

def prometheusEnableScrapeAnnotation : String := "prometheus.io/scrape"
def prometheusEnableScrapeAnnotationValue : String := "true"
def prometheusPortAnnotation : String := "prometheus.io/port"
def prometheusIpAnnotation : String := "prometheus.io/ip"
def prometheusPathAnnotation : String := "prometheus.io/path"
def prometheusSchemeAnnotation : String := "prometheus.io/scheme"
def prometheusExtraLabelsAnnotation : String := "prometheus.io/extra-labels"

/-- The constant `model.MetaLabelPrefix` of `prometheus/common`. -/
def MetaLabelPrefix : String := "__meta_"
/-- The constant `model.MetricsPathLabel` of `prometheus/common`. -/
def MetricsPathLabel : String := "__metrics_path__"
/-- The constant `model.SchemeLabel` of `prometheus/common`. -/
def SchemeLabel : String := "__scheme__"

/-- Source: `envConfig` (main.go), the fields read by the resolver. -/
structure envConfig where
  PrometheusAddContainerMetadata : Bool
  DockerNetworkName : String
  DockerNetworkStrict : Bool
  PrometheusCommonLabels : GoMap String
  deriving DecidableEq, Repr

/-- Source: `containerScrapeConfig`. -/
structure containerScrapeConfig where
  Targets : List String
  Labels : GoMap String
  deriving DecidableEq, Repr

/-- The answer of the Docker daemon to `ContainerInspect`: an error or the container. -/
abbrev InspectResult := Except String ContainerJSON

/-! ## docker_handler.go: the label resolver -/

/-- Source: `containerIsManaged`. -/
def containerIsManaged (labels : GoMap String) : Bool :=
  match mapGet labels prometheusEnableScrapeAnnotation with
  | some enabled => decide (enabled = prometheusEnableScrapeAnnotationValue)
  | none => false

/-- Source: `findHostPortAndPathForContainer`, the block `// Find port`.
`none` is the early return `false, containerScrapeConfig, nil`. -/
def findPort (c : ContainerJSON) : Option String :=
  let port := getFromMapOrDefault prometheusPortAnnotation c.Config.Labels ""
  if port = "" then
    let containerPorts := getContainerPortsNetworkConfig c.NetworkSettings.Ports
    if containerPorts.length ≠ 1 then none
    else
      match containerPorts with
      | [] => none
      | p0 :: _ => if Proto p0 ≠ "tcp" then none else some (Port p0)
  else some port

/-- Source: `findHostPortAndPathForContainer`, the block `// Find ip`.
`none` is the early return `false, containerScrapeConfig, nil`. -/
def findIp (config : envConfig) (c : ContainerJSON) : Option String :=
  match mapGet c.NetworkSettings.Networks config.DockerNetworkName with
  | some network => some network.IPAddress
  | none =>
    let ip := getFromMapOrDefault prometheusIpAnnotation c.Config.Labels ""
    if ip = "" then
      if config.DockerNetworkStrict then none
      else
        let networks := getNetworkNamesFromNetworks c.NetworkSettings.Networks
        match networks with
        | [] => none
        | n0 :: _ =>
          match mapGet c.NetworkSettings.Networks n0 with
          | none => none
          | some network => some network.IPAddress
    else some ip

/-- Source: `findHostPortAndPathForContainer`, the block `// Handle labels`,
starting from the empty label map. `none` is a panic of `parseCSLabels`. -/
def handleLabels (config : envConfig) (c : ContainerJSON) : Option (GoMap String) :=
  let labels0 := mapCopyInto [] config.PrometheusCommonLabels
  match parseCSLabels (getFromMapOrDefault prometheusExtraLabelsAnnotation c.Config.Labels "") with
  | none => none
  | some extraLabels =>
    let labels1 := mapCopyInto labels0 extraLabels
    let labels2 :=
      if config.PrometheusAddContainerMetadata then
        mapSet (mapSet labels1 (MetaLabelPrefix ++ "container_id") c.ID)
          (MetaLabelPrefix ++ "container_name") c.Name
      else labels1
    let path := getFromMapOrDefault prometheusPathAnnotation c.Config.Labels ""
    let labels3 := if path ≠ "" then mapSet labels2 MetricsPathLabel path else labels2
    let scheme := getFromMapOrDefault prometheusSchemeAnnotation c.Config.Labels ""
    let labels4 := if scheme ≠ "" then mapSet labels3 SchemeLabel scheme else labels3
    some labels4

/-- The value `containerScrapeConfig{Labels: make(map[string]string)}` returned on
every path that does not admit the container. -/
def emptyScrapeConfig : containerScrapeConfig := { Targets := [], Labels := [] }

/-- Source: `findHostPortAndPathForContainer`. The result is the Go triple
`(managed, containerScrapeConfig, err)`, `err = none` standing for `nil`;
`inspected` is what `h.client.ContainerInspect` answers for this container. -/
def findHostPortAndPathForContainer (config : envConfig) (inspected : InspectResult) :
    Option (Bool × containerScrapeConfig × Option String) :=
  match inspected with
  | .error err => some (false, emptyScrapeConfig, some err)
  | .ok c =>
    if containerIsManaged c.Config.Labels then
      match findPort c with
      | none => some (false, emptyScrapeConfig, none)
      | some port =>
        match findIp config c with
        | none => some (false, emptyScrapeConfig, none)
        | some ip =>
          match handleLabels config c with
          | none => none
          | some labels =>
            some (true, { Targets := [ip ++ ":" ++ port], Labels := labels }, none)
    else some (false, emptyScrapeConfig, none)

/-! ## docker_handler.go: the discovery registry -/

/-- The registry `managedContainers`. -/
abbrev Registry := GoMap containerScrapeConfig

/-- The Docker daemon during one batch: `client n id` is the answer to the inspect
of container `id` when it is the `n`-th inspect call of the batch. -/
abbrev DockerClient := Nat → String → InspectResult

/-- Source: `addContainersToScrapeConfig`, the loop over `containerIds`. The state
is the registry and the flag `hasContainersAdded`; `none` is a panic. -/
def addLoop (config : envConfig) :
    DockerClient → List String → Registry → Bool → Option (Registry × Bool)
  | _, [], managedContainers, hasContainersAdded => some (managedContainers, hasContainersAdded)
  | client, containerId :: rest, managedContainers, hasContainersAdded =>
    match findHostPortAndPathForContainer config (client 0 containerId) with
    | none => none
    | some (_, _, some _) =>
      addLoop config (fun n => client (n + 1)) rest managedContainers hasContainersAdded
    | some (true, scrapeConfig, none) =>
      match mapGet managedContainers containerId with
      | some _ =>
        addLoop config (fun n => client (n + 1)) rest managedContainers hasContainersAdded
      | none =>
        addLoop config (fun n => client (n + 1)) rest
          (mapSet managedContainers containerId scrapeConfig) true
    | some (false, _, none) =>
      addLoop config (fun n => client (n + 1)) rest managedContainers hasContainersAdded

/-- Source: `addContainersToScrapeConfig`. The result is the registry after the
batch and the snapshots handed to `h.writer.write` during the call, in order. -/
def addContainersToScrapeConfig (config : envConfig) (client : DockerClient)
    (managedContainers : Registry) (containerIds : List String) :
    Option (Registry × List Registry) :=
  match addLoop config client containerIds managedContainers false with
  | none => none
  | some (managedContainers', hasContainersAdded) =>
    if hasContainersAdded then some (managedContainers', [managedContainers'])
    else some (managedContainers', [])

/-- Source: `removeContainersFromScrapeConfig`, the loop over `containerIds`. -/
def removeLoop : List String → Registry → Bool → Registry × Bool
  | [], managedContainers, hasContainersRemoved => (managedContainers, hasContainersRemoved)
  | containerId :: rest, managedContainers, hasContainersRemoved =>
    match mapGet managedContainers containerId with
    | some _ => removeLoop rest (mapDelete managedContainers containerId) true
    | none => removeLoop rest managedContainers hasContainersRemoved

/-- Source: `removeContainersFromScrapeConfig`. The result is the registry after the
batch and the snapshots handed to `h.writer.write` during the call, in order. -/
def removeContainersFromScrapeConfig (managedContainers : Registry)
    (containerIds : List String) : Registry × List Registry :=
  match removeLoop containerIds managedContainers false with
  | (managedContainers', hasContainersRemoved) =>
    if hasContainersRemoved then (managedContainers', [managedContainers'])
    else (managedContainers', [])

/-! ## Concrete containers used in the examples -/

/-- An opted-in container with the single binding `8080/tcp -> 0.0.0.0:32768`,
attached to the network `monitoring_default` with the address `10.0.0.5`. -/
def webContainer : ContainerJSON :=
  { ID := "c1", Name := "/web",
    Config := { Labels := [("prometheus.io/scrape", "true")] },
    NetworkSettings :=
      { Ports := [("8080/tcp", [{ HostIP := "0.0.0.0", HostPort := "32768" }])],
        Networks := [("monitoring_default", { IPAddress := "10.0.0.5" })] } }

/-- A configuration preferring `monitoring_default`, with one common label. -/
def prodConfig : envConfig :=
  { PrometheusAddContainerMetadata := false, DockerNetworkName := "monitoring_default",
    DockerNetworkStrict := false, PrometheusCommonLabels := [("env", "prod")] }

/-- An opted-in container publishing two TCP ports, without port label. -/
def twoPortContainer : ContainerJSON :=
  { ID := "c2", Name := "/two",
    Config := { Labels := [("prometheus.io/scrape", "true")] },
    NetworkSettings :=
      { Ports := [("8080/tcp", [{ HostIP := "0.0.0.0", HostPort := "32768" }]),
                  ("9090/tcp", [{ HostIP := "0.0.0.0", HostPort := "32769" }])],
        Networks := [("monitoring_default", { IPAddress := "10.0.0.6" })] } }

/-- An opted-in container on the preferred network that also carries an IP label,
a port label and extra labels that collide with a common label. -/
def labelledContainer : ContainerJSON :=
  { ID := "c3", Name := "/labelled",
    Config := { Labels := [("prometheus.io/scrape", "true"), ("prometheus.io/port", "9100"),
      ("prometheus.io/ip", "192.168.1.9"), ("prometheus.io/extra-labels", "env:staging")] },
    NetworkSettings :=
      { Ports := [],
        Networks := [("monitoring_default", { IPAddress := "10.0.0.7" })] } }

/-- A container without the opt-in label. -/
def plainContainer : ContainerJSON :=
  { ID := "c4", Name := "/plain",
    Config := { Labels := [("com.example.role", "db")] },
    NetworkSettings :=
      { Ports := [("5432/tcp", [{ HostIP := "0.0.0.0", HostPort := "5432" }])],
        Networks := [("monitoring_default", { IPAddress := "10.0.0.8" })] } }

/-- The inspect answer for a stopped container that keeps its labels and its
network attachment: no published port, no address. -/
def stoppedContainer : ContainerJSON :=
  { ID := "c5", Name := "/stopped",
    Config := { Labels := [("prometheus.io/scrape", "true"), ("prometheus.io/port", "9100")] },
    NetworkSettings :=
      { Ports := [],
        Networks := [("monitoring_default", { IPAddress := "" })] } }

/-- A registry entry. -/
def webScrapeConfig : containerScrapeConfig :=
  { Targets := ["10.0.0.5:8080"], Labels := [("env", "prod")] }

/-! ## The words of the specification for `parseCSLabels` -/

/-- The text of a pair before its first colon; the whole pair when it has no colon. -/
def keyOfPair (pair : String) : String :=
  String.mk (pair.data.takeWhile (fun c => decide (c ≠ ':')))

/-- The text of a pair after its first colon, further colons included; empty when
the pair has no colon. -/
def valueOfPair (pair : String) : String :=
  String.mk ((pair.data.dropWhile (fun c => decide (c ≠ ':'))).drop 1)

/-- The value a sequence of pairs gives to the key `k`: that of the last pair whose
key is `k`, and none when no pair has this key. -/
def lastPairValue (pairs : List String) (k : String) : Option String :=
  (pairs.reverse.find? (fun pair => decide (keyOfPair pair = k))).map valueOfPair

/-! ## Lemmas on maps -/

theorem mapGet_mapSet_self {V : Type} (m : GoMap V) (k : String) (v : V) :
    mapGet (mapSet m k v) k = some v := by
  induction m with
  | nil => simp [mapSet, mapGet]
  | cons e rest ih =>
    obtain ⟨k', v'⟩ := e
    by_cases h : k' = k
    · simp [mapSet, mapGet, h]
    · simp [mapSet, mapGet, h, ih]

theorem mapGet_mapSet_ne {V : Type} (m : GoMap V) (k k' : String) (v : V) (h : k ≠ k') :
    mapGet (mapSet m k v) k' = mapGet m k' := by
  induction m with
  | nil => simp [mapSet, mapGet, h]
  | cons e rest ih =>
    obtain ⟨k0, v0⟩ := e
    by_cases h0 : k0 = k
    · subst h0
      simp [mapSet, mapGet, h]
    · by_cases h1 : k0 = k'
      · subst h1
        simp [mapSet, mapGet, h0]
      · simp [mapSet, mapGet, h0, h1, ih]

theorem mapGet_mapDelete_self {V : Type} (m : GoMap V) (k : String) :
    mapGet (mapDelete m k) k = none := by
  induction m with
  | nil => simp [mapDelete, mapGet]
  | cons e rest ih =>
    obtain ⟨k0, v0⟩ := e
    by_cases h0 : k0 = k
    · simpa [mapDelete, List.filter_cons, h0] using ih
    · simpa [mapDelete, List.filter_cons, h0, mapGet] using ih

theorem mapGet_mapDelete_ne {V : Type} (m : GoMap V) (k k' : String) (h : k ≠ k') :
    mapGet (mapDelete m k) k' = mapGet m k' := by
  induction m with
  | nil => simp [mapDelete, mapGet]
  | cons e rest ih =>
    obtain ⟨k0, v0⟩ := e
    by_cases h0 : k0 = k
    · subst h0
      simpa [mapDelete, List.filter_cons, mapGet, h] using ih
    · by_cases h1 : k0 = k'
      · subst h1
        simp [mapDelete, List.filter_cons, h0, mapGet]
      · simpa [mapDelete, List.filter_cons, h0, mapGet, h1] using ih

theorem mapGet_eq_none_of_not_mem_keys {V : Type} (m : GoMap V) (k : String)
    (h : k ∉ mapKeys m) : mapGet m k = none := by
  induction m with
  | nil => simp [mapGet]
  | cons e rest ih =>
    obtain ⟨k0, v0⟩ := e
    simp only [mapKeys, List.map_cons, List.mem_cons, not_or] at h
    have h0 : ¬ k0 = k := fun e => h.1 e.symm
    simp only [mapGet, h0, if_false]
    exact ih h.2

/-- Copying a map with distinct keys over another one: the copied entries win. -/
theorem mapGet_mapCopyInto {V : Type} (src dst : GoMap V) (k : String)
    (hnd : (mapKeys src).Nodup) :
    mapGet (mapCopyInto dst src) k =
      match mapGet src k with
      | some v => some v
      | none => mapGet dst k := by
  induction src generalizing dst with
  | nil => simp [mapCopyInto, mapGet]
  | cons e rest ih =>
    obtain ⟨k0, v0⟩ := e
    simp only [mapKeys, List.map_cons, List.nodup_cons] at hnd
    have ih' := ih (mapSet dst k0 v0) hnd.2
    simp only [mapCopyInto, List.foldl_cons] at ih' ⊢
    rw [ih']
    by_cases h0 : k0 = k
    · subst h0
      have hn : mapGet rest k0 = none := mapGet_eq_none_of_not_mem_keys rest k0 hnd.1
      simp [mapGet, hn, mapGet_mapSet_self]
    · simp [mapGet, h0, mapGet_mapSet_ne _ _ _ _ h0]

/-! ## Lemmas on splitting and joining -/

/-- The pieces of a split: the text before the first separator, then the pieces of
the text after it. -/
theorem splitChars_eq (sep : Char) (cs : List Char) :
    splitChars sep cs =
      cs.takeWhile (fun c => decide (c ≠ sep)) ::
        (match cs.dropWhile (fun c => decide (c ≠ sep)) with
         | [] => []
         | _ :: rest => splitChars sep rest) := by
  induction cs with
  | nil => simp [splitChars]
  | cons c cs ih =>
    by_cases h : c = sep
    · simp [splitChars, h, List.takeWhile_cons, List.dropWhile_cons]
    · rw [splitChars, if_neg h, ih]
      simp [List.takeWhile_cons, List.dropWhile_cons, h]

theorem splitChars_ne_nil (sep : Char) (cs : List Char) : splitChars sep cs ≠ [] := by
  rw [splitChars_eq]
  exact List.cons_ne_nil _ _

/-- Joining the pieces of a split with the separator gives the text back. -/
theorem stringsJoin_splitChars (sep : Char) (cs : List Char) :
    stringsJoin ((splitChars sep cs).map String.mk) (String.mk [sep]) = String.mk cs := by
  induction cs with
  | nil => simp [splitChars, stringsJoin]
  | cons c cs ih =>
    by_cases h : c = sep
    · subst h
      rw [splitChars, if_pos rfl]
      cases hs : splitChars c cs with
      | nil => exact absurd hs (splitChars_ne_nil c cs)
      | cons piece pieces =>
        rw [hs] at ih
        simp only [List.map_cons, stringsJoin] at ih ⊢
        rw [ih]
        apply String.ext
        simp
    · rw [splitChars, if_neg h]
      cases hs : splitChars sep cs with
      | nil => exact absurd hs (splitChars_ne_nil sep cs)
      | cons piece pieces =>
        rw [hs] at ih
        cases pieces with
        | nil =>
          simp only [List.map_cons, List.map_nil, stringsJoin] at ih ⊢
          have hd : piece = cs := by simpa using congrArg String.data ih
          rw [hd]
        | cons piece' pieces' =>
          simp only [List.map_cons, stringsJoin] at ih ⊢
          apply String.ext
          have hd := congrArg String.data ih
          simp only [String.data_append] at hd ⊢
          simp only [List.cons_append, hd]

/-- One iteration of the loop of `parseCSLabels` never panics, and sets the key of
the pair to the value of the pair. -/
theorem parseCSLabelsStep_eq (m : GoMap String) (pair : String) :
    parseCSLabelsStep m pair = some (mapSet m (keyOfPair pair) (valueOfPair pair)) := by
  unfold parseCSLabelsStep stringsSplit keyOfPair valueOfPair
  rw [splitChars_eq]
  cases hd : pair.data.dropWhile (fun c => decide (c ≠ ':')) with
  | nil => simp
  | cons d rest =>
    have hne := splitChars_ne_nil ':' rest
    have hj := stringsJoin_splitChars ':' rest
    cases hs : splitChars ':' rest with
    | nil => exact absurd hs hne
    | cons piece pieces =>
      rw [hs] at hj
      simp only [hs, List.map_cons, List.length_cons, List.drop_succ_cons, List.drop_zero] at hj ⊢
      have hlt : ¬ (List.map String.mk pieces).length + 1 + 1 < 2 := by omega
      rw [if_neg hlt]
      simp only [List.getElem?_cons_zero, Option.map_some']
      have hc : (":" : String) = String.mk [':'] := rfl
      rw [hc, hj]

theorem foldlM_parseCSLabelsStep (pairs : List String) (m : GoMap String) :
    pairs.foldlM parseCSLabelsStep m =
      some (pairs.foldl (fun m pair => mapSet m (keyOfPair pair) (valueOfPair pair)) m) := by
  induction pairs generalizing m with
  | nil => rfl
  | cons pair pairs ih =>
    simp only [List.foldlM_cons, List.foldl_cons, parseCSLabelsStep_eq]
    exact ih _

theorem mapGet_foldl_pairs (pairs : List String) (m : GoMap String) (k : String) :
    mapGet (pairs.foldl (fun m pair => mapSet m (keyOfPair pair) (valueOfPair pair)) m) k =
      match lastPairValue pairs k with
      | some v => some v
      | none => mapGet m k := by
  induction pairs generalizing m with
  | nil => simp [lastPairValue]
  | cons pair pairs ih =>
    rw [List.foldl_cons, ih]
    unfold lastPairValue
    rw [List.reverse_cons, List.find?_append]
    cases hf : pairs.reverse.find? (fun pair => decide (keyOfPair pair = k)) with
    | some p => simp
    | none =>
      by_cases hk : keyOfPair pair = k
      · subst hk
        simp [List.find?_cons, mapGet_mapSet_self]
      · simp [List.find?_cons, hk, mapGet_mapSet_ne _ _ _ _ hk]

theorem parseCSLabels_eq (labels : String) :
    parseCSLabels labels =
      some (if labels = "" then []
        else (stringsSplit labels ',').foldl
          (fun m pair => mapSet m (keyOfPair pair) (valueOfPair pair)) []) := by
  unfold parseCSLabels
  by_cases h : labels = ""
  · simp [h]
  · simp only [if_neg h]
    exact foldlM_parseCSLabelsStep _ _

theorem mapKeys_mapSet_nodup {V : Type} (m : GoMap V) (k : String) (v : V)
    (h : (mapKeys m).Nodup) : (mapKeys (mapSet m k v)).Nodup := by
  induction m with
  | nil => simp [mapSet, mapKeys]
  | cons e rest ih =>
    obtain ⟨k0, v0⟩ := e
    simp only [mapKeys, List.map_cons, List.nodup_cons] at h
    by_cases h0 : k0 = k
    · subst h0
      simpa [mapSet, mapKeys] using h
    · simp only [mapSet, if_neg h0, mapKeys, List.map_cons, List.nodup_cons]
      refine ⟨?_, ih h.2⟩
      intro hmem
      have hget : mapGet (mapSet rest k v) k0 = none := by
        rw [mapGet_mapSet_ne _ _ _ _ (fun e => h0 e.symm)]
        exact mapGet_eq_none_of_not_mem_keys rest k0 h.1
      have : mapGet (mapSet rest k v) k0 ≠ none := by
        clear hget ih
        generalize mapSet rest k v = l at hmem
        induction l with
        | nil => simp at hmem
        | cons e' l' ih' =>
          obtain ⟨k1, v1⟩ := e'
          by_cases h1 : k1 = k0
          · simp [mapGet, h1]
          · simp only [List.map_cons, List.mem_cons] at hmem
            rcases hmem with hm | hm
            · exact absurd hm.symm h1
            · simpa [mapGet, h1] using ih' hm
      exact this hget

theorem parseCSLabels_nodup (labels : String) (m : GoMap String)
    (h : parseCSLabels labels = some m) : (mapKeys m).Nodup := by
  rw [parseCSLabels_eq] at h
  injection h with h
  subst h
  by_cases hl : labels = ""
  · simp [hl, mapKeys]
  · simp only [if_neg hl]
    have : ∀ (pairs : List String) (acc : GoMap String), (mapKeys acc).Nodup →
        (mapKeys (pairs.foldl
          (fun m pair => mapSet m (keyOfPair pair) (valueOfPair pair)) acc)).Nodup := by
      intro pairs
      induction pairs with
      | nil => intro acc hacc; simpa using hacc
      | cons pair pairs ih =>
        intro acc hacc
        exact ih _ (mapKeys_mapSet_nodup acc _ _ hacc)
    exact this _ [] (by simp [mapKeys])

/-! ## Properties of `parseCSLabels` -/

/-- C10: `parseCSLabels` never panics; the empty string gives the empty map; any
other string, split on commas, gives the map in which a key is present exactly when
some pair has it as the text before its first colon, with the value of the last
such pair, namely the text after that first colon (empty when the pair has no
colon). -/
theorem parseCSLabels_total_and_characterised :
    parseCSLabels "" = some [] ∧
    ∀ labels : String, ∃ m : GoMap String,
      parseCSLabels labels = some m ∧
      ∀ k : String, mapGet m k =
        if labels = "" then none else lastPairValue (stringsSplit labels ',') k := by
  refine ⟨by decide, fun labels => ⟨_, parseCSLabels_eq labels, fun k => ?_⟩⟩
  by_cases h : labels = ""
  · simp [h, mapGet]
  · simp only [if_neg h]
    rw [mapGet_foldl_pairs]
    cases lastPairValue (stringsSplit labels ',') k <;> simp [mapGet]

/-! ## Lemmas on the resolver -/

theorem containerIsManaged_iff (labels : GoMap String) :
    containerIsManaged labels = true ↔ mapGet labels "prometheus.io/scrape" = some "true" := by
  unfold containerIsManaged prometheusEnableScrapeAnnotation prometheusEnableScrapeAnnotationValue
  cases h : mapGet labels "prometheus.io/scrape" with
  | none => simp
  | some v => simp

theorem handleLabels_isSome (config : envConfig) (c : ContainerJSON) :
    ∃ labels, handleLabels config c = some labels := by
  unfold handleLabels
  rw [parseCSLabels_eq]
  exact ⟨_, rfl⟩

/-- The resolver never panics. -/
theorem findHostPortAndPathForContainer_isSome (config : envConfig) (inspected : InspectResult) :
    ∃ res, findHostPortAndPathForContainer config inspected = some res := by
  unfold findHostPortAndPathForContainer
  cases inspected with
  | error err => exact ⟨_, rfl⟩
  | ok c =>
    obtain ⟨labels, hl⟩ := handleLabels_isSome config c
    simp only [hl]
    split
    · cases findPort c with
      | none => exact ⟨_, rfl⟩
      | some port =>
        cases findIp config c with
        | none => exact ⟨_, rfl⟩
        | some ip => exact ⟨_, rfl⟩
    · exact ⟨_, rfl⟩

/-- A container that is not opted in is reported as not managed, without error. -/
theorem findHostPortAndPathForContainer_not_managed (config : envConfig) (c : ContainerJSON)
    (h : mapGet c.Config.Labels "prometheus.io/scrape" ≠ some "true") :
    findHostPortAndPathForContainer config (.ok c) = some (false, emptyScrapeConfig, none) := by
  have hm : containerIsManaged c.Config.Labels = false := by
    cases hc : containerIsManaged c.Config.Labels with
    | false => rfl
    | true => exact absurd ((containerIsManaged_iff _).1 hc) h
  simp [findHostPortAndPathForContainer, hm]

/-- The resolver on an opted-in container, in terms of its three blocks. -/
theorem findHostPortAndPathForContainer_managed (config : envConfig) (c : ContainerJSON)
    (h : mapGet c.Config.Labels "prometheus.io/scrape" = some "true") :
    ∃ labels, handleLabels config c = some labels ∧
      findHostPortAndPathForContainer config (.ok c) =
        match findPort c with
        | none => some (false, emptyScrapeConfig, none)
        | some port =>
          match findIp config c with
          | none => some (false, emptyScrapeConfig, none)
          | some ip => some (true, { Targets := [ip ++ ":" ++ port], Labels := labels }, none) := by
  obtain ⟨labels, hl⟩ := handleLabels_isSome config c
  refine ⟨labels, hl, ?_⟩
  have hm : containerIsManaged c.Config.Labels = true := (containerIsManaged_iff _).2 h
  simp only [findHostPortAndPathForContainer, hm, if_true, hl]

theorem mapGet_ite_mapSet {V : Type} (cond : Prop) [Decidable cond] (m : GoMap V)
    (k k' : String) (v : V) :
    mapGet (if cond then mapSet m k v else m) k' =
      if cond ∧ k' = k then some v else mapGet m k' := by
  by_cases hc : cond
  · by_cases hk : k' = k
    · subst hk
      simp [hc, mapGet_mapSet_self]
    · simp [hc, hk, mapGet_mapSet_ne _ _ _ _ (fun e => hk e.symm)]
  · simp [hc]

theorem mapGet_ite_mapSet₂ {V : Type} (cond : Prop) [Decidable cond] (m : GoMap V)
    (k₁ k₂ k' : String) (v₁ v₂ : V) :
    mapGet (if cond then mapSet (mapSet m k₁ v₁) k₂ v₂ else m) k' =
      if cond ∧ k' = k₂ then some v₂
      else if cond ∧ k' = k₁ then some v₁ else mapGet m k' := by
  by_cases hc : cond
  · have h₂ := mapGet_ite_mapSet True (mapSet m k₁ v₁) k₂ k' v₂
    have h₁ := mapGet_ite_mapSet True m k₁ k' v₁
    simp only [if_true, true_and] at h₁ h₂
    simp only [hc, if_true, true_and, h₂, h₁]
  · simp [hc]

/-- The label map assembled for a container, key by key. -/
theorem mapGet_handleLabels (config : envConfig) (c : ContainerJSON) (labels : GoMap String)
    (h : handleLabels config c = some labels)
    (hnd : (mapKeys config.PrometheusCommonLabels).Nodup) :
    ∃ extraLabels,
      parseCSLabels (getFromMapOrDefault "prometheus.io/extra-labels" c.Config.Labels "")
        = some extraLabels ∧
      ∀ k : String, mapGet labels k =
        if getFromMapOrDefault "prometheus.io/scheme" c.Config.Labels "" ≠ "" ∧ k = "__scheme__"
        then some (getFromMapOrDefault "prometheus.io/scheme" c.Config.Labels "")
        else if getFromMapOrDefault "prometheus.io/path" c.Config.Labels "" ≠ ""
            ∧ k = "__metrics_path__"
        then some (getFromMapOrDefault "prometheus.io/path" c.Config.Labels "")
        else if config.PrometheusAddContainerMetadata = true ∧ k = "__meta_container_name"
        then some c.Name
        else if config.PrometheusAddContainerMetadata = true ∧ k = "__meta_container_id"
        then some c.ID
        else match mapGet extraLabels k with
          | some v => some v
          | none => mapGet config.PrometheusCommonLabels k := by
  obtain ⟨extraLabels, he⟩ : ∃ e, parseCSLabels
      (getFromMapOrDefault "prometheus.io/extra-labels" c.Config.Labels "") = some e :=
    ⟨_, parseCSLabels_eq _⟩
  have hnde := parseCSLabels_nodup _ _ he
  refine ⟨extraLabels, he, fun k => ?_⟩
  have hbase : mapGet (mapCopyInto (mapCopyInto [] config.PrometheusCommonLabels) extraLabels) k =
      match mapGet extraLabels k with
      | some v => some v
      | none => mapGet config.PrometheusCommonLabels k := by
    rw [mapGet_mapCopyInto _ _ _ hnde, mapGet_mapCopyInto _ _ _ hnd]
    cases mapGet extraLabels k with
    | some v => rfl
    | none => cases mapGet config.PrometheusCommonLabels k <;> rfl
  have hid : MetaLabelPrefix ++ "container_id" = "__meta_container_id" := by decide
  have hname : MetaLabelPrefix ++ "container_name" = "__meta_container_name" := by decide
  simp only [handleLabels, prometheusExtraLabelsAnnotation, he, prometheusPathAnnotation,
    prometheusSchemeAnnotation, MetricsPathLabel, SchemeLabel, hid, hname,
    Option.some.injEq] at h
  subst h
  rw [mapGet_ite_mapSet, mapGet_ite_mapSet, mapGet_ite_mapSet₂, hbase]

theorem getFromMapOrDefault_of_none (key : String) (m : GoMap String)
    (h : mapGet m key = none) : getFromMapOrDefault key m "" = "" := by
  simp [getFromMapOrDefault, h]

/-! ## Lemmas on the registry -/

/-- One iteration of the loop of `addContainersToScrapeConfig`: the registry gets a
new entry exactly when the resolver admits the container, without error, and the
container has no entry yet. -/
theorem addLoop_cons (config : envConfig) (client : DockerClient) (containerId : String)
    (rest : List String) (reg : Registry) (flag : Bool) :
    ∃ managed scrapeConfig err,
      findHostPortAndPathForContainer config (client 0 containerId)
        = some (managed, scrapeConfig, err) ∧
      addLoop config client (containerId :: rest) reg flag =
        if err = none ∧ managed = true ∧ mapGet reg containerId = none then
          addLoop config (fun n => client (n + 1)) rest (mapSet reg containerId scrapeConfig) true
        else addLoop config (fun n => client (n + 1)) rest reg flag := by
  obtain ⟨⟨managed, scrapeConfig, err⟩, hres⟩ :=
    findHostPortAndPathForContainer_isSome config (client 0 containerId)
  refine ⟨managed, scrapeConfig, err, hres, ?_⟩
  rw [addLoop, hres]
  cases err with
  | some e => simp
  | none =>
    cases managed with
    | false => simp
    | true =>
      cases hg : mapGet reg containerId with
      | some e => simp
      | none => simp

/-- The loop of `addContainersToScrapeConfig` never panics, keeps every entry it
finds, inserts only containers of the batch that the resolver admits, raises the
flag exactly when it inserts, and without insertion leaves the registry as it was. -/
theorem addLoop_spec (config : envConfig) (batch : List String) :
    ∀ (client : DockerClient) (reg : Registry) (flag : Bool),
      ∃ reg' flag', addLoop config client batch reg flag = some (reg', flag') ∧
        (∀ k v, mapGet reg k = some v → mapGet reg' k = some v) ∧
        (∀ k, mapGet reg k = none → mapGet reg' k ≠ none →
          k ∈ batch ∧ ∃ n scrapeConfig,
            findHostPortAndPathForContainer config (client n k)
              = some (true, scrapeConfig, none)) ∧
        (flag' = true ↔ flag = true ∨ ∃ k, mapGet reg k = none ∧ mapGet reg' k ≠ none) ∧
        ((∀ k, mapGet reg k = none → mapGet reg' k = none) → reg' = reg) := by
  induction batch with
  | nil =>
    intro client reg flag
    refine ⟨reg, flag, rfl, fun _ _ h => h, fun k h h' => absurd h h', ?_, fun _ => rfl⟩
    constructor
    · exact fun h => Or.inl h
    · rintro (h | ⟨k, h, h'⟩)
      · exact h
      · exact absurd h h'
  | cons containerId rest ih =>
    intro client reg flag
    obtain ⟨managed, scrapeConfig, err, hres, hstep⟩ :=
      addLoop_cons config client containerId rest reg flag
    by_cases hins : err = none ∧ managed = true ∧ mapGet reg containerId = none
    · obtain ⟨herr, hman, habs⟩ := hins
      subst herr
      subst hman
      rw [if_pos ⟨rfl, rfl, habs⟩] at hstep
      obtain ⟨reg', flag', hrun, hmono, hnew, hflag, _⟩ :=
        ih (fun n => client (n + 1)) (mapSet reg containerId scrapeConfig) true
      have hin : mapGet reg' containerId = some scrapeConfig :=
        hmono _ _ (mapGet_mapSet_self reg containerId scrapeConfig)
      refine ⟨reg', flag', hstep.trans hrun, ?_, ?_, ?_, ?_⟩
      · intro k v hk
        apply hmono
        by_cases hkc : containerId = k
        · subst hkc
          rw [habs] at hk
          exact absurd hk (by simp)
        · rw [mapGet_mapSet_ne _ _ _ _ hkc]
          exact hk
      · intro k hk hk'
        by_cases hkc : containerId = k
        · subst hkc
          exact ⟨List.mem_cons_self _ _, 0, scrapeConfig, hres⟩
        · have hk1 : mapGet (mapSet reg containerId scrapeConfig) k = none := by
            rw [mapGet_mapSet_ne _ _ _ _ hkc]
            exact hk
          obtain ⟨hmem, n, sc, hn⟩ := hnew k hk1 hk'
          exact ⟨List.mem_cons_of_mem _ hmem, n + 1, sc, hn⟩
      · have hf : flag' = true := hflag.2 (Or.inl rfl)
        constructor
        · intro _
          exact Or.inr ⟨containerId, habs, by rw [hin]; simp⟩
        · intro _
          exact hf
      · intro hall
        have := hall containerId habs
        rw [hin] at this
        exact absurd this (by simp)
    · rw [if_neg hins] at hstep
      obtain ⟨reg', flag', hrun, hmono, hnew, hflag, hsame⟩ :=
        ih (fun n => client (n + 1)) reg flag
      refine ⟨reg', flag', hstep.trans hrun, hmono, ?_, hflag, hsame⟩
      intro k hk hk'
      obtain ⟨hmem, n, sc, hn⟩ := hnew k hk hk'
      exact ⟨List.mem_cons_of_mem _ hmem, n + 1, sc, hn⟩

/-- The loop of `removeContainersFromScrapeConfig` deletes the entries of the batch
and no other, raises the flag exactly when it deletes, and without deletion leaves
the registry as it was. -/
theorem removeLoop_spec (batch : List String) :
    ∀ (reg : Registry) (flag : Bool),
      (∀ k, k ∈ batch → mapGet (removeLoop batch reg flag).1 k = none) ∧
      (∀ k, k ∉ batch → mapGet (removeLoop batch reg flag).1 k = mapGet reg k) ∧
      (∀ k, mapGet reg k = none → mapGet (removeLoop batch reg flag).1 k = none) ∧
      ((removeLoop batch reg flag).2 = true ↔
        flag = true ∨ ∃ k, mapGet reg k ≠ none ∧ mapGet (removeLoop batch reg flag).1 k = none) ∧
      ((∀ k, mapGet reg k ≠ none → mapGet (removeLoop batch reg flag).1 k ≠ none) →
        (removeLoop batch reg flag).1 = reg) := by
  induction batch with
  | nil =>
    intro reg flag
    refine ⟨fun k hk => absurd hk (List.not_mem_nil k), fun _ _ => rfl, fun _ h => h, ?_,
      fun _ => rfl⟩
    constructor
    · exact fun h => Or.inl h
    · rintro (h | ⟨k, h, h'⟩)
      · exact h
      · exact absurd h' h
  | cons containerId rest ih =>
    intro reg flag
    cases hg : mapGet reg containerId with
    | none =>
      have hstep : removeLoop (containerId :: rest) reg flag = removeLoop rest reg flag := by
        rw [removeLoop, hg]
      rw [hstep]
      obtain ⟨hin, hout, hnone, hflag, hsame⟩ := ih reg flag
      refine ⟨?_, ?_, hnone, hflag, hsame⟩
      · intro k hk
        rcases List.mem_cons.1 hk with hk | hk
        · subst hk
          exact hnone _ hg
        · exact hin k hk
      · intro k hk
        exact hout k (fun h => hk (List.mem_cons_of_mem _ h))
    | some e =>
      have hstep : removeLoop (containerId :: rest) reg flag =
          removeLoop rest (mapDelete reg containerId) true := by
        rw [removeLoop, hg]
      rw [hstep]
      obtain ⟨hin, hout, hnone, hflag, _⟩ := ih (mapDelete reg containerId) true
      have hgone : mapGet (removeLoop rest (mapDelete reg containerId) true).1 containerId
          = none := hnone _ (mapGet_mapDelete_self reg containerId)
      refine ⟨?_, ?_, ?_, ?_, ?_⟩
      · intro k hk
        rcases List.mem_cons.1 hk with hk | hk
        · subst hk
          exact hgone
        · exact hin k hk
      · intro k hk
        have hne : containerId ≠ k := fun h => hk (h ▸ List.mem_cons_self _ _)
        rw [hout k (fun h => hk (List.mem_cons_of_mem _ h)), mapGet_mapDelete_ne _ _ _ hne]
      · intro k hk
        apply hnone
        by_cases hkc : containerId = k
        · subst hkc
          exact mapGet_mapDelete_self reg containerId
        · rw [mapGet_mapDelete_ne _ _ _ hkc]
          exact hk
      · constructor
        · intro _
          exact Or.inr ⟨containerId, by rw [hg]; simp, hgone⟩
        · intro _
          exact hflag.2 (Or.inl rfl)
      · intro hall
        exact absurd hgone (hall containerId (by rw [hg]; simp))

/-! ## Properties of the resolver -/

/-- C2, as stated, fails: for the container with the single binding
`8080/tcp -> 32768` on the preferred network at `10.0.0.5`, the target is not
`10.0.0.5:32768`; and when metadata injection is enabled the label map of the same
container has a key that the common labels do not have. -/
theorem single_binding_target_is_not_the_host_port :
    (¬ ∃ labels, findHostPortAndPathForContainer prodConfig (.ok webContainer) =
        some (true, { Targets := ["10.0.0.5:32768"], Labels := labels }, none)) ∧
    (∃ labels, findHostPortAndPathForContainer
        { prodConfig with PrometheusAddContainerMetadata := true } (.ok webContainer) =
          some (true, { Targets := ["10.0.0.5:8080"], Labels := labels }, none) ∧
        mapGet labels "__meta_container_id" = some "c1" ∧
        mapGet prodConfig.PrometheusCommonLabels "__meta_container_id" = none) := by
  constructor
  · rintro ⟨labels, h⟩
    have hv : findHostPortAndPathForContainer prodConfig (.ok webContainer) =
        some (true, { Targets := ["10.0.0.5:8080"], Labels := [("env", "prod")] }, none) := by
      decide
    rw [hv] at h
    have ht : ["10.0.0.5:8080"] = ["10.0.0.5:32768"] :=
      congrArg (fun r => match r with
        | some (_, sc, _) => sc.Targets
        | none => []) h
    exact absurd ht (by decide)
  · exact ⟨[("env", "prod"), ("__meta_container_id", "c1"), ("__meta_container_name", "/web")],
      by decide, by decide, by decide⟩

/-- C2, amended: an opted-in container without port, extra-labels, path or scheme
label, with the single binding of container port `8080/tcp` to host port `32768`,
attached to the preferred network with the address `10.0.0.5`, is resolved, when
metadata injection is disabled, as managed with the single target `10.0.0.5:8080`
(the container port) and a label map equal, key by key, to the common labels. -/
theorem single_binding_resolves_to_container_port (config : envConfig) (c : ContainerJSON)
    (hostIP : String)
    (hscrape : mapGet c.Config.Labels "prometheus.io/scrape" = some "true")
    (hport : mapGet c.Config.Labels "prometheus.io/port" = none)
    (hextra : mapGet c.Config.Labels "prometheus.io/extra-labels" = none)
    (hpath : mapGet c.Config.Labels "prometheus.io/path" = none)
    (hscheme : mapGet c.Config.Labels "prometheus.io/scheme" = none)
    (hports : c.NetworkSettings.Ports = [("8080/tcp", [{ HostIP := hostIP, HostPort := "32768" }])])
    (hnet : mapGet c.NetworkSettings.Networks config.DockerNetworkName
      = some { IPAddress := "10.0.0.5" })
    (hmeta : config.PrometheusAddContainerMetadata = false)
    (hnd : (mapKeys config.PrometheusCommonLabels).Nodup) :
    ∃ labels, findHostPortAndPathForContainer config (.ok c) =
        some (true, { Targets := ["10.0.0.5:8080"], Labels := labels }, none) ∧
      ∀ k : String, mapGet labels k = mapGet config.PrometheusCommonLabels k := by
  obtain ⟨labels, hl, hf⟩ := findHostPortAndPathForContainer_managed config c hscrape
  have hproto : Proto "8080/tcp" = "tcp" := by decide
  have hnum : Port "8080/tcp" = "8080" := by decide
  have hfp : findPort c = some "8080" := by
    simp [findPort, prometheusPortAnnotation, getFromMapOrDefault_of_none _ _ hport, hports,
      getContainerPortsNetworkConfig, mapKeys, hproto, hnum]
  have hfi : findIp config c = some "10.0.0.5" := by
    simp [findIp, hnet]
  have htarget : ("10.0.0.5" : String) ++ ":" ++ "8080" = "10.0.0.5:8080" := by decide
  rw [hfp, hfi] at hf
  simp only [htarget] at hf
  refine ⟨labels, hf, fun k => ?_⟩
  obtain ⟨extraLabels, he, hk⟩ := mapGet_handleLabels config c labels hl hnd
  rw [getFromMapOrDefault_of_none _ _ hextra] at he
  have he' : extraLabels = [] := by
    have : parseCSLabels "" = some [] := by decide
    rw [this] at he
    exact (Option.some.inj he).symm
  subst he'
  rw [hk, getFromMapOrDefault_of_none _ _ hscheme, getFromMapOrDefault_of_none _ _ hpath, hmeta]
  simp [mapGet]

/-- The amended C2 on the container `webContainer` under `prodConfig`. -/
theorem single_binding_resolves_to_container_port_witness :
    ∃ labels, findHostPortAndPathForContainer prodConfig (.ok webContainer) =
        some (true, { Targets := ["10.0.0.5:8080"], Labels := labels }, none) ∧
      ∀ k : String, mapGet labels k = mapGet prodConfig.PrometheusCommonLabels k :=
  single_binding_resolves_to_container_port prodConfig webContainer "0.0.0.0"
    (by decide) (by decide) (by decide) (by decide) (by decide) (by decide) (by decide)
    (by decide) (by decide)

/-- C3: for an opted-in container without port label, a port map with zero or with
two or more entries, or with a single entry whose protocol is not TCP, makes the
resolver report not managed with a nil error; a port map with a single TCP entry
makes the port of that entry the port of the target. -/
theorem port_ambiguity_policy (config : envConfig) (c : ContainerJSON)
    (hscrape : mapGet c.Config.Labels "prometheus.io/scrape" = some "true")
    (hport : mapGet c.Config.Labels "prometheus.io/port" = none) :
    ((c.NetworkSettings.Ports.length ≠ 1 ∨
        ∃ p b, c.NetworkSettings.Ports = [(p, b)] ∧ Proto p ≠ "tcp") →
      findHostPortAndPathForContainer config (.ok c) = some (false, emptyScrapeConfig, none)) ∧
    (∀ p b, c.NetworkSettings.Ports = [(p, b)] → Proto p = "tcp" →
      ∃ labels, findHostPortAndPathForContainer config (.ok c) =
        match findIp config c with
        | none => some (false, emptyScrapeConfig, none)
        | some ip => some (true, { Targets := [ip ++ ":" ++ Port p], Labels := labels }, none)) := by
  obtain ⟨labels, _, hf⟩ := findHostPortAndPathForContainer_managed config c hscrape
  have hdef := getFromMapOrDefault_of_none _ _ hport
  constructor
  · intro h
    have hfp : findPort c = none := by
      rcases h with hlen | ⟨p, b, hp, hproto⟩
      · simp [findPort, prometheusPortAnnotation, hdef, getContainerPortsNetworkConfig,
          mapKeys, hlen]
      · simp [findPort, prometheusPortAnnotation, hdef, getContainerPortsNetworkConfig,
          mapKeys, hp, hproto]
    rw [hf, hfp]
  · intro p b hp hproto
    have hfp : findPort c = some (Port p) := by
      simp [findPort, prometheusPortAnnotation, hdef, getContainerPortsNetworkConfig,
        mapKeys, hp, hproto]
    exact ⟨labels, by rw [hf, hfp]⟩

/-- The two cases of C3 on concrete containers: two TCP bindings are skipped, the
single binding `8080/tcp` gives the port `8080`. -/
theorem port_ambiguity_policy_witness :
    findHostPortAndPathForContainer prodConfig (.ok twoPortContainer) =
      some (false, emptyScrapeConfig, none) ∧
    ∃ labels, findHostPortAndPathForContainer prodConfig (.ok webContainer) =
      some (true, { Targets := ["10.0.0.5:8080"], Labels := labels }, none) := by
  constructor
  · exact (port_ambiguity_policy prodConfig twoPortContainer (by decide) (by decide)).1
      (Or.inl (by decide))
  · obtain ⟨labels, h⟩ := (port_ambiguity_policy prodConfig webContainer (by decide)
      (by decide)).2 "8080/tcp" [{ HostIP := "0.0.0.0", HostPort := "32768" }] (by decide)
      (by decide)
    have hip : findIp prodConfig webContainer = some "10.0.0.5" := by decide
    have ht : ("10.0.0.5" : String) ++ ":" ++ Port "8080/tcp" = "10.0.0.5:8080" := by decide
    rw [hip] at h
    simp only [ht] at h
    exact ⟨labels, h⟩

/-- C4: for an opted-in container with a resolved port, the address of the target
is that of the preferred network when the container is attached to it, whatever the
IP label; otherwise the non-empty value of the IP label; otherwise, under strict
networking, the container is not managed, without error; otherwise the address of
one of the networks of the container, and without any network the container is not
managed, without error. -/
theorem address_selection (config : envConfig) (c : ContainerJSON) (port : String)
    (hscrape : mapGet c.Config.Labels "prometheus.io/scrape" = some "true")
    (hport : findPort c = some port) :
    (∀ network, mapGet c.NetworkSettings.Networks config.DockerNetworkName = some network →
      ∃ labels, findHostPortAndPathForContainer config (.ok c) =
        some (true, { Targets := [network.IPAddress ++ ":" ++ port], Labels := labels }, none)) ∧
    (mapGet c.NetworkSettings.Networks config.DockerNetworkName = none →
      (∀ ip, mapGet c.Config.Labels "prometheus.io/ip" = some ip → ip ≠ "" →
        ∃ labels, findHostPortAndPathForContainer config (.ok c) =
          some (true, { Targets := [ip ++ ":" ++ port], Labels := labels }, none)) ∧
      ((mapGet c.Config.Labels "prometheus.io/ip" = none ∨
          mapGet c.Config.Labels "prometheus.io/ip" = some "") →
        (config.DockerNetworkStrict = true →
          findHostPortAndPathForContainer config (.ok c) =
            some (false, emptyScrapeConfig, none)) ∧
        (config.DockerNetworkStrict = false →
          (c.NetworkSettings.Networks = [] →
            findHostPortAndPathForContainer config (.ok c) =
              some (false, emptyScrapeConfig, none)) ∧
          (c.NetworkSettings.Networks ≠ [] →
            ∃ name network labels, (name, network) ∈ c.NetworkSettings.Networks ∧
              mapGet c.NetworkSettings.Networks name = some network ∧
              findHostPortAndPathForContainer config (.ok c) =
                some (true, { Targets := [network.IPAddress ++ ":" ++ port],
                              Labels := labels }, none))))) := by
  obtain ⟨labels, _, hf⟩ := findHostPortAndPathForContainer_managed config c hscrape
  rw [hport] at hf
  refine ⟨fun network hn => ⟨labels, ?_⟩, fun hnone => ⟨fun ip hip hne => ⟨labels, ?_⟩,
    fun hnoip => ⟨fun hstrict => ?_, fun hstrict => ⟨fun hnil => ?_, fun hnn => ?_⟩⟩⟩⟩
  · have hfi : findIp config c = some network.IPAddress := by simp [findIp, hn]
    rw [hf, hfi]
  · have hfi : findIp config c = some ip := by
      simp [findIp, hnone, prometheusIpAnnotation, getFromMapOrDefault, hip, hne]
    rw [hf, hfi]
  · have hdef : getFromMapOrDefault "prometheus.io/ip" c.Config.Labels "" = "" := by
      rcases hnoip with h | h <;> simp [getFromMapOrDefault, h]
    have hfi : findIp config c = none := by
      simp [findIp, hnone, prometheusIpAnnotation, hdef, hstrict]
    rw [hf, hfi]
  · have hdef : getFromMapOrDefault "prometheus.io/ip" c.Config.Labels "" = "" := by
      rcases hnoip with h | h <;> simp [getFromMapOrDefault, h]
    have hfi : findIp config c = none := by
      simp [findIp, prometheusIpAnnotation, hdef, hstrict,
        getNetworkNamesFromNetworks, mapKeys, hnil, mapGet]
    rw [hf, hfi]
  · have hdef : getFromMapOrDefault "prometheus.io/ip" c.Config.Labels "" = "" := by
      rcases hnoip with h | h <;> simp [getFromMapOrDefault, h]
    cases hnets : c.NetworkSettings.Networks with
    | nil => exact absurd hnets hnn
    | cons e rest =>
      obtain ⟨name, network⟩ := e
      have hget : mapGet ((name, network) :: rest) name = some network := by simp [mapGet]
      refine ⟨name, network, labels, List.mem_cons_self _ _, hget, ?_⟩
      have hne : name ≠ config.DockerNetworkName := by
        intro he
        rw [hnets, he] at hnone
        simp [mapGet] at hnone
      have hfi : findIp config c = some network.IPAddress := by
        rw [hnets] at hnone
        simp only [findIp, hnets, hnone, prometheusIpAnnotation, hdef, hstrict,
          getNetworkNamesFromNetworks, mapKeys, List.map_cons, hget]
        simp
      rw [hf, hfi]

/-- The first case of C4 on a container that is attached to the preferred network and
carries an IP label: the address of the network is used. -/
theorem address_selection_witness :
    ∃ labels, findHostPortAndPathForContainer prodConfig (.ok labelledContainer) =
      some (true, { Targets := ["10.0.0.7" ++ ":" ++ "9100"], Labels := labels }, none) :=
  (address_selection prodConfig labelledContainer "9100" (by decide) (by decide)).1
    { IPAddress := "10.0.0.7" } (by decide)

/-- C5: the label map of an admitted container, key by key, in the overwrite order
of the resolver: the scheme label when `prometheus.io/scheme` is set, else the
metrics-path label when `prometheus.io/path` is set, else the container-name and
container-id labels when metadata injection is enabled, else the extra labels parsed
from `prometheus.io/extra-labels`, else the common labels. -/
theorem label_overwrite_order (config : envConfig) (c : ContainerJSON)
    (scrapeConfig : containerScrapeConfig)
    (hres : findHostPortAndPathForContainer config (.ok c) = some (true, scrapeConfig, none))
    (hnd : (mapKeys config.PrometheusCommonLabels).Nodup) :
    ∃ extraLabels,
      parseCSLabels (getFromMapOrDefault "prometheus.io/extra-labels" c.Config.Labels "")
        = some extraLabels ∧
      ∀ k : String, mapGet scrapeConfig.Labels k =
        if getFromMapOrDefault "prometheus.io/scheme" c.Config.Labels "" ≠ "" ∧ k = "__scheme__"
        then some (getFromMapOrDefault "prometheus.io/scheme" c.Config.Labels "")
        else if getFromMapOrDefault "prometheus.io/path" c.Config.Labels "" ≠ ""
            ∧ k = "__metrics_path__"
        then some (getFromMapOrDefault "prometheus.io/path" c.Config.Labels "")
        else if config.PrometheusAddContainerMetadata = true ∧ k = "__meta_container_name"
        then some c.Name
        else if config.PrometheusAddContainerMetadata = true ∧ k = "__meta_container_id"
        then some c.ID
        else match mapGet extraLabels k with
          | some v => some v
          | none => mapGet config.PrometheusCommonLabels k := by
  have hscrape : mapGet c.Config.Labels "prometheus.io/scrape" = some "true" := by
    by_contra hno
    rw [findHostPortAndPathForContainer_not_managed config c hno] at hres
    simp at hres
  obtain ⟨labels, hl, hf⟩ := findHostPortAndPathForContainer_managed config c hscrape
  have hlabels : scrapeConfig.Labels = labels := by
    rw [hf] at hres
    cases hp : findPort c with
    | none => simp [hp] at hres
    | some port =>
      cases hi : findIp config c with
      | none => simp [hp, hi] at hres
      | some ip =>
        simp only [hp, hi, Option.some.injEq, Prod.mk.injEq, true_and, and_true] at hres
        rw [← hres]
  rw [hlabels]
  exact mapGet_handleLabels config c labels hl hnd

/-- The instance of C5 named by the specification: the common label `env: prod` and
the extra labels `env:staging` resolve to `env = staging`. -/
theorem label_overwrite_order_witness :
    ∃ scrapeConfig,
      findHostPortAndPathForContainer prodConfig (.ok labelledContainer)
        = some (true, scrapeConfig, none) ∧
      mapGet prodConfig.PrometheusCommonLabels "env" = some "prod" ∧
      mapGet scrapeConfig.Labels "env" = some "staging" := by
  have hres : findHostPortAndPathForContainer prodConfig (.ok labelledContainer) =
      some (true, { Targets := ["10.0.0.7:9100"], Labels := [("env", "staging")] }, none) := by
    decide
  obtain ⟨extraLabels, he, hk⟩ :=
    label_overwrite_order prodConfig labelledContainer _ hres (by decide)
  have hextra : getFromMapOrDefault "prometheus.io/extra-labels"
      labelledContainer.Config.Labels "" = "env:staging" := by decide
  have hparse : parseCSLabels "env:staging" = some [("env", "staging")] := by decide
  rw [hextra, hparse] at he
  have hx : extraLabels = [("env", "staging")] := (Option.some.inj he).symm
  subst hx
  refine ⟨_, hres, by decide, ?_⟩
  rw [hk "env"]
  decide

/-! ## Properties of the registry -/

/-- C1: when every inspect of a container succeeds and shows labels without
`prometheus.io/scrape = "true"`, the resolver reports it as not managed with no
error, and no add-batch on any registry inserts its ID: the registry holds for this
ID after the batch what it held before. -/
theorem unmanaged_container_never_inserted (config : envConfig) (client : DockerClient)
    (reg : Registry) (batch : List String) (id : String)
    (h : ∀ n, ∃ c, client n id = .ok c ∧
      mapGet c.Config.Labels "prometheus.io/scrape" ≠ some "true") :
    (∀ n, findHostPortAndPathForContainer config (client n id)
      = some (false, emptyScrapeConfig, none)) ∧
    ∃ reg' writes, addContainersToScrapeConfig config client reg batch = some (reg', writes) ∧
      mapGet reg' id = mapGet reg id := by
  have hres : ∀ n, findHostPortAndPathForContainer config (client n id)
      = some (false, emptyScrapeConfig, none) := by
    intro n
    obtain ⟨c, hc, hl⟩ := h n
    rw [hc]
    exact findHostPortAndPathForContainer_not_managed config c hl
  refine ⟨hres, ?_⟩
  obtain ⟨reg', flag', hrun, hmono, hnew, _, _⟩ := addLoop_spec config batch client reg false
  have hget : mapGet reg' id = mapGet reg id := by
    cases hg : mapGet reg id with
    | some v => exact hmono id v hg
    | none =>
      by_contra hne
      obtain ⟨_, n, sc, hn⟩ := hnew id hg hne
      rw [hres n] at hn
      simp at hn
  cases flag' with
  | true => exact ⟨reg', [reg'], by simp [addContainersToScrapeConfig, hrun], hget⟩
  | false => exact ⟨reg', [], by simp [addContainersToScrapeConfig, hrun], hget⟩

/-- An instance of C1: a batch naming twice a container without opt-in label. -/
theorem unmanaged_container_never_inserted_witness :
    (∀ _ : Nat, findHostPortAndPathForContainer prodConfig (.ok plainContainer)
      = some (false, emptyScrapeConfig, none)) ∧
    ∃ reg' writes, addContainersToScrapeConfig prodConfig (fun _ _ => .ok plainContainer)
        [("c1", webScrapeConfig)] ["c4", "c1", "c4"] = some (reg', writes) ∧
      mapGet reg' "c4" = mapGet [("c1", webScrapeConfig)] "c4" :=
  unmanaged_container_never_inserted prodConfig (fun _ _ => .ok plainContainer)
    [("c1", webScrapeConfig)] ["c4", "c1", "c4"] "c4"
    (fun _ => ⟨plainContainer, rfl, by decide⟩)

/-- C6: an add-batch made of one ID that the registry already holds leaves the
registry exactly as it was and hands nothing to the writer, whatever the inspect of
the container answers, an error included. -/
theorem idempotent_add (config : envConfig) (client : DockerClient) (reg : Registry)
    (id : String) (entry : containerScrapeConfig) (h : mapGet reg id = some entry) :
    addContainersToScrapeConfig config client reg [id] = some (reg, []) := by
  obtain ⟨managed, scrapeConfig, err, _, hstep⟩ := addLoop_cons config client id [] reg false
  have hno : ¬ (err = none ∧ managed = true ∧ mapGet reg id = none) := by
    rintro ⟨_, _, hn⟩
    rw [h] at hn
    simp at hn
  rw [if_neg hno] at hstep
  unfold addContainersToScrapeConfig
  rw [hstep]
  simp [addLoop]

/-- An instance of C6: the container would be admitted, and its entry is kept as stored. -/
theorem idempotent_add_witness :
    addContainersToScrapeConfig prodConfig (fun _ _ => .ok labelledContainer)
      [("c3", webScrapeConfig)] ["c3"] = some ([("c3", webScrapeConfig)], []) :=
  idempotent_add prodConfig (fun _ _ => .ok labelledContainer) [("c3", webScrapeConfig)]
    "c3" webScrapeConfig (by decide)

/-- C7: `addContainersToScrapeConfig` hands the registry to the writer once, as it
stands after the batch, exactly when the batch gave an entry to an ID that had none,
and `removeContainersFromScrapeConfig` does so exactly when the batch took the entry
of an ID that had one; a batch without write leaves the registry as it was, and a
remove-batch of IDs that are not in the registry changes nothing and writes
nothing. -/
theorem flush_policy (config : envConfig) (client : DockerClient) (reg : Registry)
    (batch : List String) :
    (∃ reg' writes, addContainersToScrapeConfig config client reg batch = some (reg', writes) ∧
      (writes = [reg'] ∨ writes = []) ∧
      (writes = [reg'] ↔ ∃ k, mapGet reg k = none ∧ mapGet reg' k ≠ none) ∧
      (writes = [] → reg' = reg)) ∧
    (∃ reg' writes, removeContainersFromScrapeConfig reg batch = (reg', writes) ∧
      (writes = [reg'] ∨ writes = []) ∧
      (writes = [reg'] ↔ ∃ k, mapGet reg k ≠ none ∧ mapGet reg' k = none) ∧
      (writes = [] → reg' = reg)) ∧
    ((∀ k, k ∈ batch → mapGet reg k = none) →
      removeContainersFromScrapeConfig reg batch = (reg, [])) := by
  refine ⟨?_, ?_, ?_⟩
  · obtain ⟨reg', flag', hrun, _, _, hflag, hsame⟩ := addLoop_spec config batch client reg false
    cases flag' with
    | true =>
      refine ⟨reg', [reg'], by simp [addContainersToScrapeConfig, hrun], Or.inl rfl, ?_, ?_⟩
      · constructor
        · intro _
          rcases hflag.1 rfl with hf | hx
          · exact absurd hf (by simp)
          · exact hx
        · intro _
          rfl
      · intro hw
        exact absurd hw (by simp)
    | false =>
      have hnone : ¬ ∃ k, mapGet reg k = none ∧ mapGet reg' k ≠ none := by
        intro hx
        have := hflag.2 (Or.inr hx)
        simp at this
      refine ⟨reg', [], by simp [addContainersToScrapeConfig, hrun], Or.inr rfl, ?_, ?_⟩
      · constructor
        · intro hw
          exact absurd hw (by simp)
        · intro hx
          exact absurd hx hnone
      · intro _
        apply hsame
        intro k hk
        by_contra hne
        exact hnone ⟨k, hk, hne⟩
  · obtain ⟨_, _, _, hflag, hsame⟩ := removeLoop_spec batch reg false
    cases hf : (removeLoop batch reg false).2 with
    | true =>
      refine ⟨(removeLoop batch reg false).1, [(removeLoop batch reg false).1],
        by simp [removeContainersFromScrapeConfig, hf], Or.inl rfl, ?_, ?_⟩
      · constructor
        · intro _
          rcases hflag.1 hf with hb | hx
          · exact absurd hb (by simp)
          · exact hx
        · intro _
          rfl
      · intro hw
        exact absurd hw (by simp)
    | false =>
      have hnone : ¬ ∃ k, mapGet reg k ≠ none ∧ mapGet (removeLoop batch reg false).1 k = none := by
        intro hx
        have := hflag.2 (Or.inr hx)
        rw [hf] at this
        simp at this
      refine ⟨(removeLoop batch reg false).1, [],
        by simp [removeContainersFromScrapeConfig, hf], Or.inr rfl, ?_, ?_⟩
      · constructor
        · intro hw
          exact absurd hw (by simp)
        · intro hx
          exact absurd hx hnone
      · intro _
        apply hsame
        intro k hk hne
        exact hnone ⟨k, hk, hne⟩
  · intro habsent
    obtain ⟨hin, hout, hkeep, hflag, hsame⟩ := removeLoop_spec batch reg false
    have hnone : ¬ ∃ k, mapGet reg k ≠ none ∧ mapGet (removeLoop batch reg false).1 k = none := by
      rintro ⟨k, hk, hk'⟩
      by_cases hmem : k ∈ batch
      · exact hk (habsent k hmem)
      · rw [hout k hmem] at hk'
        exact hk hk'
    have hreg : (removeLoop batch reg false).1 = reg := by
      apply hsame
      intro k hk hne
      exact hnone ⟨k, hk, hne⟩
    have hf : (removeLoop batch reg false).2 = false := by
      cases hb : (removeLoop batch reg false).2 with
      | false => rfl
      | true =>
        rcases hflag.1 hb with h | h
        · exact absurd h (by simp)
        · exact absurd h hnone
    simp [removeContainersFromScrapeConfig, hf, hreg]

/-- C8, as stated, fails: on the empty registry, the remove-batch of an ID followed
by the add-batch of the same ID, while the inspect of the stopped container still
answers with its labels and its network attachment, leaves the ID in the registry. -/
theorem remove_then_add_keeps_the_container :
    addContainersToScrapeConfig prodConfig (fun _ _ => .ok stoppedContainer)
        (removeContainersFromScrapeConfig [] ["c5"]).1 ["c5"] =
      some ([("c5", { Targets := [":9100"], Labels := [("env", "prod")] })],
        [[("c5", { Targets := [":9100"], Labels := [("env", "prod")] })]]) ∧
    mapGet [("c5", ({ Targets := [":9100"], Labels := [("env", "prod")] } : containerScrapeConfig))]
      "c5" ≠ none := by
  constructor
  · decide
  · decide

/-- C8, amended: after the add-batch `[id]` followed by the remove-batch `[id]`
the registry does not contain `id`; after the remove-batch `[id]` followed by the
add-batch `[id]` the registry does not contain `id` exactly when the resolver,
inspecting the container for that add-batch, does not admit it. -/
theorem start_stop_convergence (config : envConfig) (client : DockerClient) (reg : Registry)
    (id : String) :
    (∃ reg' writes, addContainersToScrapeConfig config client reg [id] = some (reg', writes) ∧
      mapGet (removeContainersFromScrapeConfig reg' [id]).1 id = none) ∧
    (∃ reg' writes,
      addContainersToScrapeConfig config client (removeContainersFromScrapeConfig reg [id]).1 [id]
        = some (reg', writes) ∧
      (mapGet reg' id = none ↔
        ¬ ∃ scrapeConfig, findHostPortAndPathForContainer config (client 0 id)
          = some (true, scrapeConfig, none))) := by
  have hremove : ∀ r : Registry, mapGet (removeContainersFromScrapeConfig r [id]).1 id = none := by
    intro r
    have h := (removeLoop_spec [id] r false).1 id (List.mem_cons_self _ _)
    unfold removeContainersFromScrapeConfig
    split
    next reg' flag' heq =>
      rw [heq] at h
      by_cases hf : flag' = true <;> simpa [hf] using h
  have hadd : ∀ r : Registry, ∃ reg' writes,
      addContainersToScrapeConfig config client r [id] = some (reg', writes) ∧
      ∃ flag', addLoop config client [id] r false = some (reg', flag') := by
    intro r
    obtain ⟨reg', flag', hrun, _⟩ := addLoop_spec config [id] client r false
    cases flag' with
    | true => exact ⟨reg', [reg'], by simp [addContainersToScrapeConfig, hrun], true, hrun⟩
    | false => exact ⟨reg', [], by simp [addContainersToScrapeConfig, hrun], false, hrun⟩
  constructor
  · obtain ⟨reg', writes, hrun, _⟩ := hadd reg
    exact ⟨reg', writes, hrun, hremove reg'⟩
  · obtain ⟨reg', writes, hrun, flag', hloop⟩ := hadd (removeContainersFromScrapeConfig reg [id]).1
    refine ⟨reg', writes, hrun, ?_⟩
    obtain ⟨managed, scrapeConfig, err, hres, hstep⟩ :=
      addLoop_cons config client id [] (removeContainersFromScrapeConfig reg [id]).1 false
    rw [hloop] at hstep
    by_cases hins : err = none ∧ managed = true
    · obtain ⟨herr, hman⟩ := hins
      subst herr
      subst hman
      rw [if_pos ⟨rfl, rfl, hremove reg⟩] at hstep
      simp only [addLoop, Option.some.injEq, Prod.mk.injEq] at hstep
      rw [hstep.1, mapGet_mapSet_self]
      constructor
      · intro hx
        exact absurd hx (by simp)
      · intro hx
        exact absurd ⟨scrapeConfig, hres⟩ hx
    · have hno : ¬ (err = none ∧ managed = true ∧
          mapGet (removeContainersFromScrapeConfig reg [id]).1 id = none) :=
        fun hx => hins ⟨hx.1, hx.2.1⟩
      rw [if_neg hno] at hstep
      simp only [addLoop, Option.some.injEq, Prod.mk.injEq] at hstep
      rw [hstep.1]
      constructor
      · rintro _ ⟨sc, hsc⟩
        rw [hres] at hsc
        simp only [Option.some.injEq, Prod.mk.injEq] at hsc
        exact hins ⟨hsc.2.2, hsc.1⟩
      · intro _
        exact hremove reg

/-- C9, as stated, fails: the registry holds an entry for `c4`, the add-batch
`[c4]` re-inspects the container, the resolver reports it as not managed, and the
registry after the batch still holds the entry. -/
theorem unmanaged_on_reinspection_is_kept :
    findHostPortAndPathForContainer prodConfig (.ok plainContainer)
      = some (false, emptyScrapeConfig, none) ∧
    addContainersToScrapeConfig prodConfig (fun _ _ => .ok plainContainer)
      [("c4", webScrapeConfig)] ["c4"] = some ([("c4", webScrapeConfig)], []) ∧
    mapGet [("c4", webScrapeConfig)] "c4" = some webScrapeConfig := by
  refine ⟨by decide, by decide, by decide⟩

/-- C9, amended: an add-batch never destroys or changes an entry: whatever the
resolver reports on re-inspection, managed = false included, an ID that the registry
holds keeps its entry after the batch. -/
theorem add_keeps_existing_entries (config : envConfig) (client : DockerClient)
    (reg : Registry) (batch : List String) (id : String) (entry : containerScrapeConfig)
    (h : mapGet reg id = some entry) :
    ∃ reg' writes, addContainersToScrapeConfig config client reg batch = some (reg', writes) ∧
      mapGet reg' id = some entry := by
  obtain ⟨reg', flag', hrun, hmono, _, _, _⟩ := addLoop_spec config batch client reg false
  cases flag' with
  | true => exact ⟨reg', [reg'], by simp [addContainersToScrapeConfig, hrun], hmono id entry h⟩
  | false => exact ⟨reg', [], by simp [addContainersToScrapeConfig, hrun], hmono id entry h⟩

/-- An instance of the amended C9. -/
theorem add_keeps_existing_entries_witness :
    ∃ reg' writes, addContainersToScrapeConfig prodConfig (fun _ _ => .ok plainContainer)
        [("c4", webScrapeConfig)] ["c1", "c4"] = some (reg', writes) ∧
      mapGet reg' "c4" = some webScrapeConfig :=
  add_keeps_existing_entries prodConfig (fun _ _ => .ok plainContainer)
    [("c4", webScrapeConfig)] ["c1", "c4"] "c4" webScrapeConfig (by decide)

end DockerLabelsDiscovery
